import Mathlib

/-!
Verification of `ncg777/musicbox1` (`src/src/musicEngine.ts`).

Shallow embedding conventions:
* JS numbers are modelled as rationals (`ℚ`); all arithmetic the claims
  touch is exact in the source (sums, products, divisions, `Math.ceil`,
  `Math.floor`, `Math.max`, `Math.min`).
* `Math.random()` draws are modelled as explicitly passed rationals `u`
  with `0 ≤ u < 1`, or as streams `ℕ → ℚ` where a loop consumes several.
* Web Audio nodes are modelled as numeric handles allocated from a
  counter; operations that disconnect/stop nodes report those handles in
  an event list, since the claims speak about teardown behaviour.
* The engine's mutable fields become a state record; each method becomes
  a function from state (plus its arguments and random draws) to state,
  possibly paired with emitted events.
-/

namespace MusicBox

/-- `Math.floor(u * n)` for a uniform draw `u ∈ [0,1)` against a size `n`,
as used by `PcsRelationGraph` and `triggerRandomNote`
(`Math.floor(Math.random() * n)`). -/
def randFloor (u : ℚ) (n : ℕ) : ℕ :=
  (⌊u * n⌋).toNat

/-- `MusicEngine.sixteenthSeconds` (musicEngine.ts:210-212):
`(60 / this.bpm) / 4`. -/
def sixteenthSeconds (bpm : ℚ) : ℚ :=
  (60 / bpm) / 4

/-- `MusicEngine.barSeconds` (musicEngine.ts:214-216): `4 * (60 / this.bpm)`. -/
def barSeconds (bpm : ℚ) : ℚ :=
  4 * (60 / bpm)

/-- `MusicEngine.quantizeToSixteenth` (musicEngine.ts:381-383):
`Math.ceil(time / this.sixteenthSeconds) * this.sixteenthSeconds`.
Parameterized by the current `bpm` that the getter `sixteenthSeconds`
reads. -/
def quantizeToSixteenth (bpm : ℚ) (time : ℚ) : ℚ :=
  ⌈time / sixteenthSeconds bpm⌉ * sixteenthSeconds bpm

/-- `MusicEngine.scheduleNextNote` (musicEngine.ts:649-653) with the
exponential draw `-ln(1-U)/λ` abstracted as an arbitrary rational `d`
(the claims quantify over every random source):
`deltaSeconds = Math.max(0.01, d); nextNoteTime = quantize(currentTime + deltaSeconds)`. -/
def scheduleNextNote (bpm : ℚ) (d : ℚ) (currentTime : ℚ) : ℚ :=
  quantizeToSixteenth bpm (currentTime + max 0.01 d)

/-- The base note lengths of `MusicalDuration` (musicEngine.ts:31-37):
whole, half, quarter, eighth, sixteenth, thirty-second. -/
inductive BaseDuration
  | n1_1 | n1_2 | n1_4 | n1_8 | n1_16 | n1_32
  deriving DecidableEq, Repr

/-- The optional suffix of a `MusicalDuration` string: none, `D` (dotted)
or `T` (triplet). -/
inductive DurationMod
  | plain | dotted | triplet
  deriving DecidableEq, Repr

/-- A `MusicalDuration` string `'<base>'`, `'<base>D'` or `'<base>T'`
(musicEngine.ts:31-37), decomposed as the source's parse does:
`duration.replace(/[TD]$/, '')` is the base and `duration.slice(-1)`
carries the modifier. -/
structure MusicalDuration where
  base : BaseDuration
  mod : DurationMod
  deriving DecidableEq, Repr

/-- The `baseValues` record lookup of `musicalDurationToSeconds`
(musicEngine.ts:103-110).  Every well-typed `MusicalDuration` has a base
in the record, so the `|| wholeNote / 4` fallback never fires. -/
def baseValue (b : BaseDuration) (wholeNote : ℚ) : ℚ :=
  match b with
  | .n1_1 => wholeNote
  | .n1_2 => wholeNote / 2
  | .n1_4 => wholeNote / 4
  | .n1_8 => wholeNote / 8
  | .n1_16 => wholeNote / 16
  | .n1_32 => wholeNote / 32

/-- `musicalDurationToSeconds` (musicEngine.ts:99-127): base value from the
whole-note length `4 * 60/bpm`, then `* (2/3)` for a `T` suffix and
`* 1.5` for a `D` suffix. -/
def musicalDurationToSeconds (duration : MusicalDuration) (bpm : ℚ) : ℚ :=
  let beatSeconds := 60 / bpm
  let wholeNote := beatSeconds * 4
  let value := baseValue duration.base wholeNote
  match duration.mod with
  | .triplet => value * (2 / 3)
  | .dotted => value * 1.5
  | .plain => value

/-- `MAX_VOICES` (musicEngine.ts:7). -/
def MAX_VOICES : ℕ := 32

/-- `OCTAVE_MIN` (musicEngine.ts:8). -/
def OCTAVE_MIN : ℕ := 4

/-- `OCTAVE_MAX` (musicEngine.ts:9). -/
def OCTAVE_MAX : ℕ := 7

/-- `BARS_PER_CHANGE` (musicEngine.ts:10). -/
def BARS_PER_CHANGE : ℕ := 4

/-- `DelayFilterType` (musicEngine.ts:48). -/
inductive DelayFilterType
  | lowpass | bandpass | highpass
  deriving DecidableEq, Repr

/-- `DelayFilterOrder` (musicEngine.ts:49): 6, 12 or 24 dB/octave. -/
inductive DelayFilterOrder
  | o6 | o12 | o24
  deriving DecidableEq, Repr

/-- The numeric value of a `DelayFilterOrder`. -/
def DelayFilterOrder.toNat : DelayFilterOrder → ℕ
  | .o6 => 6
  | .o12 => 12
  | .o24 => 24

/-- `EnvelopeParams` (musicEngine.ts:13-18). -/
structure EnvelopeParams where
  attack : ℚ
  decay : ℚ
  sustain : ℚ
  release : ℚ
  deriving DecidableEq, Repr

/-- `VibratoParams` (musicEngine.ts:20-23). -/
structure VibratoParams where
  rate : ℚ
  depth : ℚ
  deriving DecidableEq, Repr

/-- `TremoloParams` (musicEngine.ts:25-28). -/
structure TremoloParams where
  rate : ℚ
  depth : ℚ
  deriving DecidableEq, Repr

/-- `DelayParams` (musicEngine.ts:51-60). -/
structure DelayParams where
  enabled : Bool
  duration : MusicalDuration
  feedback : ℚ
  mix : ℚ
  filterType : DelayFilterType
  filterFrequency : ℚ
  filterResonance : ℚ
  filterOrder : DelayFilterOrder
  deriving DecidableEq, Repr

/-- `SynthParams` (musicEngine.ts:62-68). -/
structure SynthParams where
  envelope : EnvelopeParams
  vibrato : VibratoParams
  tremolo : TremoloParams
  delay : DelayParams
  maxNoteDuration : ℚ
  deriving DecidableEq, Repr

/-- A `BiquadFilterNode` in the delay's filter cascade.  `id` is the
backend node handle, modelling JS object identity (needed to state that a
parameter-only update keeps the same stage objects). -/
structure BiquadFilter where
  id : ℕ
  type : DelayFilterType
  frequency : ℚ
  resonance : ℚ
  deriving DecidableEq, Repr

/-- A tracked `Voice` (musicEngine.ts:133-138): handles of its oscillator
and envelope-gain nodes plus its scheduled start/end times. -/
structure Voice where
  oscillator : Option ℕ
  gainNode : Option ℕ
  startTime : ℚ
  endTime : ℚ
  deriving DecidableEq, Repr

/-- The lifecycle state of the backend `AudioContext`. -/
inductive AudioContextState
  | running | suspended
  deriving DecidableEq, Repr

/-- Observable side effects the claims talk about: oscillator `stop()`
calls, node `disconnect()` calls, and the `onNoteTriggered` /
`onPlayStateChange` callbacks. -/
inductive AudioEvent
  | oscStopped (id : ℕ)
  | nodeDisconnected (id : ℕ)
  | noteTriggered (pitchClass : ℕ)
  | playStateChanged (playing : Bool)
  deriving DecidableEq, Repr

/-- Modelled from the spec: `Pcs12` (src/pcs12.ts is not under `src/`);
spec §3 describes a PitchClassSet as an immutable 12-bit membership
vector.  It is only the node payload of `PcsRelationGraph`; `advance()`
never inspects it, so no operations are needed here. -/
structure Pcs12 where
  membership : Fin 12 → Bool
  deriving DecidableEq

/-- `PcsRelationGraph` (musicEngine.ts:144-171): precomputed nodes and
adjacency plus the one mutable field `currentIndex`. -/
structure PcsRelationGraph where
  nodes : List Pcs12
  adjacency : List (List ℕ)
  currentIndex : ℕ

/-- The `PcsRelationGraph` constructor (musicEngine.ts:149-154): stores
the precomputed data and draws
`currentIndex = Math.floor(Math.random() * nodes.length)` from a uniform
`u ∈ [0,1)`. -/
def PcsRelationGraph.make (nodes : List Pcs12) (adjacency : List (List ℕ))
    (u : ℚ) : PcsRelationGraph :=
  { nodes := nodes, adjacency := adjacency,
    currentIndex := randFloor u nodes.length }

/-- `PcsRelationGraph.advance` (musicEngine.ts:160-170): no-op on an
empty graph; otherwise hop to a random neighbor of the current node, or,
if the current node has no neighbors, to a random node of the whole
graph.  `u` is the `Math.random()` draw consumed by whichever branch
runs. -/
def PcsRelationGraph.advance (g : PcsRelationGraph) (u : ℚ) :
    PcsRelationGraph :=
  if g.nodes.length = 0 then g
  else
    let neighbors := g.adjacency.getD g.currentIndex []
    if 0 < neighbors.length then
      { g with currentIndex := neighbors.getD (randFloor u neighbors.length) 0 }
    else
      { g with currentIndex := randFloor u g.nodes.length }

/-- The mutable fields of `MusicEngine` (musicEngine.ts:176-197) that the
claims concern.  Web Audio node fields hold numeric handles; `nextNodeId`
is the modelling counter from which fresh handles are allocated.
`audioContext = none` models "no AudioContext created yet"; the
`pcsGraph` field is modelled separately as `PcsRelationGraph` since the
graph-walk claims do not interact with the rest of the engine state. -/
structure MusicEngine where
  audioContext : Option AudioContextState
  masterGain : Option ℕ
  reverbNode : Option ℕ
  delayNode : Option ℕ
  delayFeedbackGain : Option ℕ
  delayFilters : List BiquadFilter
  delayDryGain : Option ℕ
  delayWetGain : Option ℕ
  delayInputGain : Option ℕ
  isPlaying : Bool
  activePitchClasses : List ℕ
  voices : List Voice
  nextNoteTime : ℚ
  nextGraphHopTime : ℚ
  schedulerId : Option ℕ
  synthParams : SynthParams
  bpm : ℚ
  meanNotesPerBar : ℚ
  nextNodeId : ℕ

/-- `MusicEngine.setBpm` (musicEngine.ts:259-261):
`this.bpm = Math.max(20, Math.min(300, bpm))`. -/
def setBpm (bpm : ℚ) (e : MusicEngine) : MusicEngine :=
  { e with bpm := max 20 (min 300 bpm) }

/-- `MusicEngine.getBpm` (musicEngine.ts:263-265). -/
def getBpm (e : MusicEngine) : ℚ :=
  e.bpm

/-- The `stop()`/`disconnect()` calls issued for one voice, by both the
eviction branch of `triggerNote` (musicEngine.ts:539-546) and `stop()`
(musicEngine.ts:768-775): stop and disconnect the oscillator, disconnect
the gain node.  The source wraps these in try/catch, swallowing errors;
the model records the attempted calls. -/
def stopVoiceEvents (v : Voice) : List AudioEvent :=
  (match v.oscillator with
   | some i => [.oscStopped i, .nodeDisconnected i]
   | none => []) ++
  (match v.gainNode with
   | some i => [.nodeDisconnected i]
   | none => [])

/-- The `disconnect()` calls of `cleanupOldVoices` (musicEngine.ts:512-518):
disconnect oscillator and gain node of a finished voice (no `stop()`
call there). -/
def cleanupVoiceEvents (v : Voice) : List AudioEvent :=
  (match v.oscillator with
   | some i => [.nodeDisconnected i]
   | none => []) ++
  (match v.gainNode with
   | some i => [.nodeDisconnected i]
   | none => [])

/-- A `disconnect()` on an optional node handle. -/
def disconnectOpt : Option ℕ → List AudioEvent
  | some i => [.nodeDisconnected i]
  | none => []

/-- `MusicEngine.cleanupOldVoices` (musicEngine.ts:505-526): keep only
voices with `endTime ≥ now - 0.5`, disconnecting the nodes of the ones
removed.  `now` is `audioContext.currentTime`; the caller guards on the
context being present. -/
def cleanupOldVoices (now : ℚ) (voices : List Voice) :
    List Voice × List AudioEvent :=
  (voices.filter (fun v => decide ¬(v.endTime < now - 0.5)),
   ((voices.filter (fun v => decide (v.endTime < now - 0.5))).map
      cleanupVoiceEvents).flatten)

/-- `MusicEngine.triggerNote` (musicEngine.ts:528-625).  The `frequency`
argument of the source is consumed only by untracked backend parameter
calls (oscillator frequency, vibrato gain), so it does not appear here.
State effects: return unchanged unless both `audioContext` and
`masterGain` exist; clean up old voices; if the pool still holds
`MAX_VOICES` voices, `shift()` the oldest out, stopping and disconnecting
it; create the note's nodes (the oscillator and envelope gain are the
tracked handles; the vibrato/tremolo LFOs and gains are created but never
tracked) and `push` the new voice with
`endTime = when + duration + release`. -/
def triggerNote (when duration now : ℚ) (e : MusicEngine) :
    MusicEngine × List AudioEvent :=
  match e.audioContext, e.masterGain with
  | some _, some _ =>
    let cleaned := cleanupOldVoices now e.voices
    let evicted :=
      if MAX_VOICES ≤ cleaned.1.length then
        match cleaned.1 with
        | [] => (([] : List Voice), ([] : List AudioEvent))
        | oldest :: rest => (rest, stopVoiceEvents oldest)
      else (cleaned.1, [])
    let release := e.synthParams.envelope.release
    let newVoice : Voice :=
      { oscillator := some e.nextNodeId
        gainNode := some (e.nextNodeId + 1)
        startTime := when
        endTime := when + duration + release }
    ({ e with
        voices := evicted.1 ++ [newVoice]
        nextNodeId := e.nextNodeId + 2 },
     cleaned.2 ++ evicted.2)
  | _, _ => (e, [])

/-- `MusicEngine.triggerRandomNote` (musicEngine.ts:627-647): silently
return when no pitch classes are active; otherwise pick a random active
pitch class and octave, derive the note duration
`maxNoteDuration * (0.5 + U * 0.5)`, trigger the note and fire the
`onNoteTriggered` callback.  `uPitch`, `uOct`, `uDur` are the three
`Math.random()` draws; the oscillator frequency `440·2^((midi-69)/12)` is
an untracked backend parameter. -/
def triggerRandomNote (whenTime : ℚ) (uPitch uOct uDur now : ℚ)
    (e : MusicEngine) : MusicEngine × List AudioEvent :=
  if e.activePitchClasses.length = 0 then (e, [])
  else
    let pitchClass :=
      e.activePitchClasses.getD (randFloor uPitch e.activePitchClasses.length) 0
    let _octave := OCTAVE_MIN + randFloor uOct (OCTAVE_MAX - OCTAVE_MIN + 1)
    let duration := e.synthParams.maxNoteDuration * (0.5 + uDur * 0.5)
    let r := triggerNote whenTime duration now e
    (r.1, r.2 ++ [.noteTriggered pitchClass])

/-- `MusicEngine.stop` (musicEngine.ts:758-832): clear the playing flag
and scheduler timer, stop and disconnect every voice, disconnect and drop
every effect node (master gain, delay nodes, delay filters, reverb), and
suspend the audio context if it is running.  Each teardown step is
wrapped in try/catch in the source, so teardown is total; the model
records the attempted calls and the final `onPlayStateChange(false)`. -/
def stop (e : MusicEngine) : MusicEngine × List AudioEvent :=
  let voiceEvents := (e.voices.map stopVoiceEvents).flatten
  let nodeEvents :=
    disconnectOpt e.masterGain ++ disconnectOpt e.delayNode ++
    disconnectOpt e.delayFeedbackGain ++ disconnectOpt e.delayDryGain ++
    disconnectOpt e.delayWetGain ++ disconnectOpt e.delayInputGain ++
    e.delayFilters.map (fun f => AudioEvent.nodeDisconnected f.id) ++
    disconnectOpt e.reverbNode
  ({ e with
      isPlaying := false
      schedulerId := none
      voices := []
      masterGain := none
      delayNode := none
      delayFeedbackGain := none
      delayDryGain := none
      delayWetGain := none
      delayInputGain := none
      delayFilters := []
      reverbNode := none
      audioContext := e.audioContext.map
        (fun st => if st = .running then .suspended else st) },
   voiceEvents ++ nodeEvents ++ [.playStateChanged false])

/-- The `createBiquadFilter` loop shared by `createDelayEffect`
(musicEngine.ts:429-435) and `recreateDelayFilterChain`
(musicEngine.ts:344-351): build `n` stages of the given type, frequency
and resonance, with fresh node handles from `nextId`. -/
def createFilters (type : DelayFilterType) (frequency resonance : ℚ) :
    ℕ → ℕ → List BiquadFilter
  | 0, _ => []
  | n + 1, nextId =>
    { id := nextId, type := type, frequency := frequency,
      resonance := resonance } ::
      createFilters type frequency resonance n (nextId + 1)

/-- `MusicEngine.recreateDelayFilterChain` (musicEngine.ts:335-370):
guarded on the context and the delay/feedback/wet nodes being present;
disconnects every old filter stage, replaces the cascade with
`numFilters` freshly created stages, disconnects the delay node and
rewires it through the new cascade (the `connect` calls are untracked
backend topology). -/
def recreateDelayFilterChain (type : DelayFilterType)
    (frequency resonance : ℚ) (numFilters : ℕ) (e : MusicEngine) :
    MusicEngine × List AudioEvent :=
  match e.audioContext, e.delayNode, e.delayFeedbackGain, e.delayWetGain with
  | some _, some dn, some _, some _ =>
    let oldEvents := e.delayFilters.map
      (fun f => AudioEvent.nodeDisconnected f.id)
    let newFilters := createFilters type frequency resonance numFilters e.nextNodeId
    ({ e with
        delayFilters := newFilters
        nextNodeId := e.nextNodeId + numFilters },
     oldEvents ++ [.nodeDisconnected dn])
  | _, _, _, _ => (e, [])

/-- `MusicEngine.updateDelayFilters` (musicEngine.ts:316-333): with
`numFilters = order / 6`, rebuild the cascade when the stage count
changed, else mutate the existing stages' type/frequency/Q in place
(`setTargetAtTime` smoothing is an untracked backend parameter ramp; the
stage objects keep their identity). -/
def updateDelayFilters (type : DelayFilterType) (frequency resonance : ℚ)
    (order : DelayFilterOrder) (e : MusicEngine) :
    MusicEngine × List AudioEvent :=
  if e.audioContext = none then (e, [])
  else
    let numFilters := order.toNat / 6
    if e.delayFilters.length ≠ numFilters then
      recreateDelayFilterChain type frequency resonance numFilters e
    else
      ({ e with
          delayFilters := e.delayFilters.map
            (fun f => { f with type := type, frequency := frequency,
                               resonance := resonance }) },
       [])

/-- `MusicEngine.createDelayEffect` (musicEngine.ts:402-460): guarded on
context and master gain; allocates the delay node, feedback gain,
dry/wet gains and input gain, then a cascade of `filterOrder / 6` filter
stages.  Gain values, the delay time
`musicalDurationToSeconds(duration, bpm)` and the `connect` wiring are
untracked backend parameters. -/
def createDelayEffect (e : MusicEngine) : MusicEngine :=
  match e.audioContext, e.masterGain with
  | some _, some _ =>
    let p := e.synthParams.delay
    let numFilters := p.filterOrder.toNat / 6
    { e with
        delayNode := some e.nextNodeId
        delayFeedbackGain := some (e.nextNodeId + 1)
        delayDryGain := some (e.nextNodeId + 2)
        delayWetGain := some (e.nextNodeId + 3)
        delayInputGain := some (e.nextNodeId + 4)
        delayFilters := createFilters p.filterType p.filterFrequency
          p.filterResonance numFilters (e.nextNodeId + 5)
        nextNodeId := e.nextNodeId + 5 + numFilters }
  | _, _ => e

/-- The timing initialization inside `start()` (musicEngine.ts:737-741):
seed `nextNoteTime = now + 0.1` and
`nextGraphHopTime = now + barSeconds * BARS_PER_CHANGE`, then call
`scheduleNextNote(startTime)`, which overwrites `nextNoteTime` with
`quantizeToSixteenth(startTime + max(0.01, d))` where `d` is the
exponential draw. -/
def startSetTiming (now d : ℚ) (e : MusicEngine) : MusicEngine :=
  let e1 := { e with
    nextNoteTime := now + 0.1
    nextGraphHopTime := now + barSeconds e.bpm * BARS_PER_CHANGE }
  { e1 with nextNoteTime := scheduleNextNote e1.bpm d now }

/-- The timing state read and written by `scheduler()`
(musicEngine.ts:655-681). -/
structure SchedulerTiming where
  nextNoteTime : ℚ
  nextGraphHopTime : ℚ
  deriving DecidableEq, Repr

/-- The note-triggering while-loop of `scheduler()`
(musicEngine.ts:671-677): while `nextNoteTime ≤ currentTime + 0.2` and
fewer than 3 notes were triggered this tick, pass
`max(nextNoteTime, currentTime + 0.02)` to `triggerRandomNote` and
redraw `nextNoteTime` via `scheduleNextNote(nextNoteTime)`.  `draws i`
is the i-th exponential inter-arrival draw (the other `Math.random()`
consumers do not influence onset times).  Returns the final
`nextNoteTime`, the next draw index, and the onset times in trigger
order. -/
def schedulerNoteLoop (bpm currentTime : ℚ) (draws : ℕ → ℚ) :
    ℕ → ℕ → ℚ → ℚ × ℕ × List ℚ
  | 0, i, nnt => (nnt, i, [])
  | fuel + 1, i, nnt =>
    if nnt ≤ currentTime + 0.2 then
      let noteTime := max nnt (currentTime + 0.02)
      let nnt2 := scheduleNextNote bpm (draws i) nnt
      let r := schedulerNoteLoop bpm currentTime draws fuel (i + 1) nnt2
      (r.1, r.2.1, noteTime :: r.2.2)
    else (nnt, i, [])

/-- One `scheduler()` tick (musicEngine.ts:655-681) on the timing state:
the graph-hop branch advances `nextGraphHopTime` by
`barSeconds * BARS_PER_CHANGE` when `currentTime ≥ nextGraphHopTime - 0.2`
(the `pcsGraph.advance()`/`refreshPitchClasses()` it performs does not
touch the timing state), then the note loop runs with a cap of 3. -/
def schedulerTick (bpm currentTime : ℚ) (draws : ℕ → ℚ) (i : ℕ)
    (st : SchedulerTiming) : SchedulerTiming × ℕ × List ℚ :=
  let st1 :=
    if st.nextGraphHopTime - 0.2 ≤ currentTime then
      { st with nextGraphHopTime :=
          st.nextGraphHopTime + barSeconds bpm * BARS_PER_CHANGE }
    else st
  let r := schedulerNoteLoop bpm currentTime draws 3 i st1.nextNoteTime
  ({ st1 with nextNoteTime := r.1 }, r.2.1, r.2.2)

/-- A live-scheduler execution: one `scheduler()` tick per entry of
`ticks`, each at the clock time the entry gives (`setTimeout(…, 50)`
re-arms the tick; the host may fire it at any later clock time, so tick
times are an arbitrary non-decreasing sequence).  Returns the final
timing state, next draw index, and every onset time passed to
`triggerRandomNote`, in order. -/
def schedulerRun (bpm : ℚ) (draws : ℕ → ℚ) :
    List ℚ → ℕ → SchedulerTiming → SchedulerTiming × ℕ × List ℚ
  | [], i, st => (st, i, [])
  | T :: Ts, i, st =>
    let r := schedulerTick bpm T draws i st
    let rest := schedulerRun bpm draws Ts r.2.1 r.1
    (rest.1, rest.2.1, r.2.2 ++ rest.2.2)

/-- Lying on the sixteenth-note grid: an integer multiple of
`sixteenthSeconds bpm`. -/
def onSixteenthGrid (bpm x : ℚ) : Prop :=
  ∃ k : ℤ, x = k * sixteenthSeconds bpm

/-- `DEFAULT_SYNTH_PARAMS` (musicEngine.ts:70-96). -/
def DEFAULT_SYNTH_PARAMS : SynthParams :=
  { envelope := { attack := 0.01, decay := 0.1, sustain := 0.8, release := 1.8 }
    vibrato := { rate := 4.8, depth := 0.003 }
    tremolo := { rate := 2.1, depth := 0.25 }
    delay := { enabled := false, duration := ⟨.n1_4, .plain⟩, feedback := 0.4,
               mix := 0.3, filterType := .lowpass, filterFrequency := 2000,
               filterResonance := 1, filterOrder := .o12 }
    maxNoteDuration := 2.4 }

/-- A concrete two-node relation graph used to instantiate the
graph-walk theorems. -/
def sampleGraph : PcsRelationGraph :=
  { nodes := [⟨fun _ => true⟩, ⟨fun _ => false⟩]
    adjacency := [[1], [0]]
    currentIndex := 0 }

/-- A concrete engine state (context running, nodes allocated, the
two-stage default filter cascade, no voices, no active pitch classes)
used to instantiate the engine-level theorems. -/
def sampleEngine : MusicEngine :=
  { audioContext := some .running
    masterGain := some 0
    reverbNode := some 1
    delayNode := some 2
    delayFeedbackGain := some 3
    delayFilters := [⟨7, .lowpass, 2000, 1⟩, ⟨8, .lowpass, 2000, 1⟩]
    delayDryGain := some 4
    delayWetGain := some 5
    delayInputGain := some 6
    isPlaying := true
    activePitchClasses := []
    voices := []
    nextNoteTime := 0
    nextGraphHopTime := 16
    schedulerId := some 0
    synthParams := DEFAULT_SYNTH_PARAMS
    bpm := 45
    meanNotesPerBar := 6
    nextNodeId := 9 }

end MusicBox

namespace MusicBox

/-- `quantizeToSixteenth` yields an integer multiple of the sixteenth and
never rounds down.  Helper shared by the scheduler lemmas. -/
theorem quantize_ge (bpm t : ℚ) (hb : 0 < bpm) :
    t ≤ quantizeToSixteenth bpm t := by
  unfold quantizeToSixteenth
  have hs : 0 < sixteenthSeconds bpm := by
    unfold sixteenthSeconds; positivity
  have h := Int.le_ceil (t / sixteenthSeconds bpm)
  calc t = t / sixteenthSeconds bpm * sixteenthSeconds bpm := by
        field_simp
    _ ≤ ⌈t / sixteenthSeconds bpm⌉ * sixteenthSeconds bpm := by
        exact mul_le_mul_of_nonneg_right h (le_of_lt hs)

/-- `quantizeToSixteenth` lands on the sixteenth grid. -/
theorem quantize_on_grid (bpm t : ℚ) :
    ∃ k : ℤ, quantizeToSixteenth bpm t = k * sixteenthSeconds bpm :=
  ⟨⌈t / sixteenthSeconds bpm⌉, rfl⟩

end MusicBox

namespace MusicBox

/-- C3 counterexample: at `bpm = 60` (`sixteenthSeconds = 1/4`) and input
`t = -1`, `quantizeToSixteenth` returns `-1`, which is not a non-negative
value, refuting the claim for arbitrary real inputs. -/
theorem quantizeToSixteenth_neg_input :
    quantizeToSixteenth 60 (-1) = -1 ∧ ¬ (0 ≤ quantizeToSixteenth 60 (-1)) := by
  have h : quantizeToSixteenth 60 (-1) = -1 := by
    unfold quantizeToSixteenth sixteenthSeconds
    have h4 : ((-1 : ℚ) / (60 / 60 / 4)) = ((-4 : ℤ) : ℚ) := by norm_num
    rw [h4, Int.ceil_intCast]
    norm_num
  exact ⟨h, by rw [h]; norm_num⟩

/-- C3 (amended): for every `bpm > 0` and every input `t ≥ 0`,
`quantizeToSixteenth t` is a non-negative (natural) multiple of the
sixteenth-note duration `(60/bpm)/4` and `quantizeToSixteenth t ≥ t`. -/
theorem quantizeToSixteenth_spec (bpm t : ℚ) (hb : 0 < bpm) (ht : 0 ≤ t) :
    (∃ k : ℕ, quantizeToSixteenth bpm t = k * sixteenthSeconds bpm) ∧
      t ≤ quantizeToSixteenth bpm t := by
  have hs : 0 < sixteenthSeconds bpm := by
    unfold sixteenthSeconds; positivity
  constructor
  · refine ⟨(⌈t / sixteenthSeconds bpm⌉).toNat, ?_⟩
    have hc : 0 ≤ ⌈t / sixteenthSeconds bpm⌉ :=
      Int.ceil_nonneg (by positivity)
    have hcast : ((⌈t / sixteenthSeconds bpm⌉.toNat : ℕ) : ℚ) =
        ((⌈t / sixteenthSeconds bpm⌉ : ℤ) : ℚ) := by
      exact_mod_cast Int.toNat_of_nonneg hc
    unfold quantizeToSixteenth
    rw [hcast]
  · exact quantize_ge bpm t hb

/-- C3 witness at `bpm = 60`, `t = 1`. -/
theorem quantizeToSixteenth_spec_witness :
    (∃ k : ℕ, quantizeToSixteenth 60 1 = k * sixteenthSeconds 60) ∧
      (1 : ℚ) ≤ quantizeToSixteenth 60 1 :=
  quantizeToSixteenth_spec 60 1 (by norm_num) (by norm_num)

/-- C4: for every `bpm > 0`, a quarter note lasts `60/bpm` seconds, a
whole note `4 * (60/bpm)`, and for every base duration the dotted variant
is 1.5 times the base and the triplet variant 2/3 of the base. -/
theorem musicalDurationToSeconds_spec (bpm : ℚ) (hb : 0 < bpm) :
    musicalDurationToSeconds ⟨.n1_4, .plain⟩ bpm = 60 / bpm ∧
    musicalDurationToSeconds ⟨.n1_1, .plain⟩ bpm = 4 * (60 / bpm) ∧
    ∀ b : BaseDuration,
      musicalDurationToSeconds ⟨b, .dotted⟩ bpm =
        1.5 * musicalDurationToSeconds ⟨b, .plain⟩ bpm ∧
      musicalDurationToSeconds ⟨b, .triplet⟩ bpm =
        (2 / 3) * musicalDurationToSeconds ⟨b, .plain⟩ bpm := by
  refine ⟨?_, ?_, ?_⟩
  · simp only [musicalDurationToSeconds, baseValue]
    ring
  · simp only [musicalDurationToSeconds, baseValue]
    ring
  · intro b
    cases b <;>
      exact ⟨by simp only [musicalDurationToSeconds, baseValue]; ring,
             by simp only [musicalDurationToSeconds, baseValue]; ring⟩

/-- C4 witness at `bpm = 120`. -/
theorem musicalDurationToSeconds_spec_witness :
    musicalDurationToSeconds ⟨.n1_4, .plain⟩ 120 = 60 / 120 ∧
    musicalDurationToSeconds ⟨.n1_1, .plain⟩ 120 = 4 * (60 / 120) ∧
    ∀ b : BaseDuration,
      musicalDurationToSeconds ⟨b, .dotted⟩ 120 =
        1.5 * musicalDurationToSeconds ⟨b, .plain⟩ 120 ∧
      musicalDurationToSeconds ⟨b, .triplet⟩ 120 =
        (2 / 3) * musicalDurationToSeconds ⟨b, .plain⟩ 120 :=
  musicalDurationToSeconds_spec 120 (by norm_num)

end MusicBox

namespace MusicBox

/-- Evaluate `quantizeToSixteenth` at a concrete point by exhibiting its
ceiling value. -/
theorem quantizeToSixteenth_eval (bpm t : ℚ) (k : ℤ)
    (h1 : (k : ℚ) - 1 < t / sixteenthSeconds bpm)
    (h2 : t / sixteenthSeconds bpm ≤ (k : ℚ)) :
    quantizeToSixteenth bpm t = k * sixteenthSeconds bpm := by
  unfold quantizeToSixteenth
  rw [Int.ceil_eq_iff.mpr ⟨h1, h2⟩]

/-- C10: after `setBpm(b)` the stored bpm is exactly `b` clamped to
`[20, 300]`, `getBpm` returns that value, and it always lies within
`[20, 300]`. -/
theorem setBpm_clamp_spec (e : MusicEngine) (b : ℚ) :
    getBpm (setBpm b e) = max 20 (min 300 b) ∧
    20 ≤ getBpm (setBpm b e) ∧ getBpm (setBpm b e) ≤ 300 := by
  refine ⟨rfl, le_max_left _ _, ?_⟩
  show max 20 (min 300 b) ≤ 300
  exact max_le (by norm_num) (min_le_left _ _)

/-- C9: `stop()` from any engine state leaves the engine stopped with no
tracked voices, no scheduler timer and no effect nodes, and a second
consecutive `stop()` leaves the state identical to after the first. -/
theorem stop_idempotent_spec (e : MusicEngine) :
    (stop (stop e).1).1 = (stop e).1 ∧
    (stop e).1.isPlaying = false ∧
    (stop e).1.voices = [] ∧
    (stop e).1.schedulerId = none ∧
    (stop e).1.masterGain = none ∧
    (stop e).1.delayNode = none ∧
    (stop e).1.delayFeedbackGain = none ∧
    (stop e).1.delayDryGain = none ∧
    (stop e).1.delayWetGain = none ∧
    (stop e).1.delayInputGain = none ∧
    (stop e).1.delayFilters = [] ∧
    (stop e).1.reverbNode = none := by
  refine ⟨?_, rfl, rfl, rfl, rfl, rfl, rfl, rfl, rfl, rfl, rfl, rfl⟩
  simp only [stop, Option.map_map]
  congr 1
  cases e.audioContext with
  | none => rfl
  | some st => cases st <;> rfl

/-- C7: when the active pitch-class set is empty, `triggerRandomNote` is
a silent no-op for any trigger time and random draws: the state is
unchanged and no event (in particular no note-triggered notification) is
emitted. -/
theorem triggerRandomNote_empty_noop (whenTime uPitch uOct uDur now : ℚ)
    (e : MusicEngine) (h : e.activePitchClasses = []) :
    triggerRandomNote whenTime uPitch uOct uDur now e = (e, []) := by
  simp [triggerRandomNote, h]

/-- C7 witness on the concrete `sampleEngine` (empty active set). -/
theorem triggerRandomNote_empty_noop_witness :
    triggerRandomNote 1 0 0 0 1 sampleEngine = (sampleEngine, []) :=
  triggerRandomNote_empty_noop 1 0 0 0 1 sampleEngine rfl

/-- C5 (amended): after the timing initialization of `start()` at clock
time `now`, `nextGraphHopTime = now + barSeconds × 4` as claimed, but
`nextNoteTime` is not the seeded `now + 0.1`: the `scheduleNextNote`
call that `start()` makes immediately afterwards overwrites it with
`quantizeToSixteenth(now + max(0.01, d))`, `d` the exponential draw. -/
theorem startSetTiming_spec (now d : ℚ) (e : MusicEngine) :
    (startSetTiming now d e).nextGraphHopTime =
      now + barSeconds e.bpm * 4 ∧
    (startSetTiming now d e).nextNoteTime =
      quantizeToSixteenth e.bpm (now + max 0.01 d) := by
  constructor
  · show now + barSeconds e.bpm * (BARS_PER_CHANGE : ℕ) = _
    norm_num [BARS_PER_CHANGE]
  · rfl

/-- C5 counterexample: on `sampleEngine` (`bpm = 45`), starting at clock
time `0` with exponential draw `1/2` leaves `nextNoteTime = 2/3`, not
`0 + 0.1`. -/
theorem startSetTiming_overwrites_seed :
    (startSetTiming 0 (1/2) sampleEngine).nextNoteTime ≠ 0 + 0.1 := by
  have he : (startSetTiming 0 (1/2) sampleEngine).nextNoteTime =
      quantizeToSixteenth 45 (0 + max 0.01 (1/2)) := rfl
  have harg : (0 : ℚ) + max 0.01 (1/2) = 1/2 := by
    rw [max_eq_right (by norm_num : (0.01 : ℚ) ≤ 1/2)]
    norm_num
  have hval : quantizeToSixteenth 45 (1/2) = 2/3 := by
    rw [quantizeToSixteenth_eval 45 (1/2) 2
      (by norm_num [sixteenthSeconds]) (by norm_num [sixteenthSeconds])]
    norm_num [sixteenthSeconds]
  rw [he, harg, hval]
  norm_num

end MusicBox

namespace MusicBox

/-- `Math.floor(u * n)` lands strictly below `n` for a draw `u ∈ [0,1)`. -/
theorem randFloor_lt (u : ℚ) (n : ℕ) (hu0 : 0 ≤ u) (hu1 : u < 1)
    (hn : 0 < n) : randFloor u n < n := by
  unfold randFloor
  have hn' : (0 : ℚ) < n := by exact_mod_cast hn
  have hfl : ⌊u * (n : ℚ)⌋ < (n : ℤ) := by
    apply Int.floor_lt.mpr
    push_cast
    calc u * n < 1 * n := by exact mul_lt_mul_of_pos_right hu1 hn'
      _ = n := one_mul _
  have hfl0 : 0 ≤ ⌊u * (n : ℚ)⌋ := Int.floor_nonneg.mpr (by positivity)
  omega

/-- The preimage of each result `j` of `Math.floor(u * n)` is exactly the
interval `[j/n, (j+1)/n)` of draws — the intervals all have length `1/n`,
which is the sense in which the draw is uniform over `0 … n-1`. -/
theorem randFloor_eq_iff (u : ℚ) (n j : ℕ) (hu0 : 0 ≤ u) (hn : 0 < n) :
    randFloor u n = j ↔
      (j : ℚ) / n ≤ u ∧ u < ((j : ℚ) + 1) / n := by
  unfold randFloor
  have hn' : (0 : ℚ) < n := by exact_mod_cast hn
  have hfl0 : 0 ≤ ⌊u * (n : ℚ)⌋ := Int.floor_nonneg.mpr (by positivity)
  constructor
  · intro h
    have hj : ⌊u * (n : ℚ)⌋ = (j : ℤ) := by omega
    have h2 := Int.floor_eq_iff.mp hj
    push_cast at h2
    constructor
    · rw [div_le_iff hn']
      exact h2.1
    · rw [lt_div_iff hn']
      linarith [h2.2]
  · intro h
    have hj : ⌊u * (n : ℚ)⌋ = (j : ℤ) := by
      apply Int.floor_eq_iff.mpr
      rw [div_le_iff hn'] at *
      constructor
      · push_cast
        exact h.1
      · push_cast
        rw [lt_div_iff hn'] at *
        linarith [h.2]
    omega

/-- C2 counterexample: on the empty (zero-node) graph, the constructor
sets `currentIndex = 0` and `advance()` keeps it, but `0` is not a valid
index into the empty node list — there is none — so "always leaves
`currentIndex` a valid index, including in the zero-node case" fails. -/
theorem advance_empty_graph_invalid_index :
    ((PcsRelationGraph.make [] [] (1/2)).advance (1/2)).currentIndex = 0 ∧
    ¬ ((PcsRelationGraph.make [] [] (1/2)).advance (1/2)).currentIndex <
        ((PcsRelationGraph.make [] [] (1/2)).advance (1/2)).nodes.length := by
  constructor
  · simp [PcsRelationGraph.make, PcsRelationGraph.advance, randFloor]
  · simp [PcsRelationGraph.make, PcsRelationGraph.advance]

/-- C2 (amended): on a non-empty graph whose adjacency lists only hold
in-range indices, `advance()` always yields `currentIndex` in range; when
the current node's neighbor list is non-empty the new index is one of the
neighbors; when it is empty the new index is `⌊u·n⌋`, which equals `j`
exactly for draws in the equal-length interval `[j/n, (j+1)/n)` — the
uniform fallback over all nodes.  (The zero-node case is excluded: there
no valid index exists at all.) -/
theorem advance_spec (g : PcsRelationGraph) (u : ℚ) (hu0 : 0 ≤ u)
    (hu1 : u < 1) (hne : g.nodes ≠ [])
    (hvalid : ∀ l ∈ g.adjacency, ∀ i ∈ l, i < g.nodes.length) :
    (g.advance u).currentIndex < g.nodes.length ∧
    (g.adjacency.getD g.currentIndex [] ≠ [] →
      (g.advance u).currentIndex ∈ g.adjacency.getD g.currentIndex []) ∧
    (g.adjacency.getD g.currentIndex [] = [] →
      ∀ j : ℕ, j < g.nodes.length →
        ((g.advance u).currentIndex = j ↔
          (j : ℚ) / g.nodes.length ≤ u ∧
            u < ((j : ℚ) + 1) / g.nodes.length)) := by
  have hlen : 0 < g.nodes.length := List.length_pos.mpr hne
  have hlen0 : ¬ g.nodes.length = 0 := by omega
  by_cases hnb : g.adjacency.getD g.currentIndex [] = []
  · -- disconnected-node fallback: uniform over the whole graph
    have hadv : (g.advance u).currentIndex = randFloor u g.nodes.length := by
      unfold PcsRelationGraph.advance
      rw [if_neg hlen0]
      simp only [hnb]
      rfl
    refine ⟨?_, fun h => absurd hnb h, fun _ j hj => ?_⟩
    · rw [hadv]
      exact randFloor_lt u g.nodes.length hu0 hu1 hlen
    · rw [hadv]
      exact randFloor_eq_iff u g.nodes.length j hu0 hlen
  · -- neighbor hop
    have hpos : 0 < (g.adjacency.getD g.currentIndex []).length :=
      List.length_pos.mpr hnb
    have hadv : (g.advance u).currentIndex =
        (g.adjacency.getD g.currentIndex []).getD
          (randFloor u (g.adjacency.getD g.currentIndex []).length) 0 := by
      unfold PcsRelationGraph.advance
      rw [if_neg hlen0]
      simp only [if_pos hpos]
    have hidx := randFloor_lt u (g.adjacency.getD g.currentIndex []).length
      hu0 hu1 hpos
    have hmem : (g.advance u).currentIndex ∈
        g.adjacency.getD g.currentIndex [] := by
      rw [hadv, List.getD_eq_getElem _ _ hidx]
      exact List.getElem_mem hidx
    have hcur : g.currentIndex < g.adjacency.length := by
      by_contra hc
      have : g.adjacency.getD g.currentIndex [] = [] :=
        List.getD_eq_default _ _ (by omega)
      exact hnb this
    refine ⟨?_, fun _ => hmem, fun h => absurd h hnb⟩
    have hl : g.adjacency.getD g.currentIndex [] ∈ g.adjacency := by
      rw [List.getD_eq_getElem _ _ hcur]
      exact List.getElem_mem hcur
    exact hvalid _ hl _ hmem

/-- C2 witness on the concrete `sampleGraph` with draw `u = 1/2`. -/
theorem advance_spec_witness :
    (sampleGraph.advance (1/2)).currentIndex < sampleGraph.nodes.length ∧
    (sampleGraph.adjacency.getD sampleGraph.currentIndex [] ≠ [] →
      (sampleGraph.advance (1/2)).currentIndex ∈
        sampleGraph.adjacency.getD sampleGraph.currentIndex []) ∧
    (sampleGraph.adjacency.getD sampleGraph.currentIndex [] = [] →
      ∀ j : ℕ, j < sampleGraph.nodes.length →
        ((sampleGraph.advance (1/2)).currentIndex = j ↔
          (j : ℚ) / sampleGraph.nodes.length ≤ 1/2 ∧
            (1/2 : ℚ) < ((j : ℚ) + 1) / sampleGraph.nodes.length)) :=
  advance_spec sampleGraph (1/2) (by norm_num) (by norm_num)
    (by simp [sampleGraph]) (by decide)

end MusicBox

namespace MusicBox

/-- `createFilters` builds exactly `n` stages. -/
theorem createFilters_length (ft : DelayFilterType) (fr rs : ℚ)
    (n i : ℕ) : (createFilters ft fr rs n i).length = n := by
  induction n generalizing i with
  | zero => rfl
  | succ n ih => simp [createFilters, ih]

/-- Every stage built by `createFilters` carries the requested
parameters and a handle at or above the allocation base. -/
theorem createFilters_mem (ft : DelayFilterType) (fr rs : ℚ)
    (n i : ℕ) :
    ∀ f ∈ createFilters ft fr rs n i,
      f.type = ft ∧ f.frequency = fr ∧ f.resonance = rs ∧ i ≤ f.id := by
  induction n generalizing i with
  | zero => intro f hf; simp [createFilters] at hf
  | succ n ih =>
    intro f hf
    simp only [createFilters, List.mem_cons] at hf
    rcases hf with h | h
    · subst h
      exact ⟨rfl, rfl, rfl, le_refl _⟩
    · rcases ih (i + 1) f h with ⟨h1, h2, h3, h4⟩
      exact ⟨h1, h2, h3, by omega⟩

end MusicBox

namespace MusicBox

/-- C6: with the audio context present, (i) `createDelayEffect` builds a
cascade of exactly `filterOrder / 6` biquad stages; (ii) an update whose
`filterOrder` yields a different stage count disconnects every old stage
and builds a cascade of the new count whose stages are all new objects
(fresh handles); (iii) an update that keeps the stage count (only
type/frequency/resonance changed) keeps the same stage objects — the
handle list is unchanged — mutates their parameters in place, and
disconnects nothing. -/
theorem delayFilterChain_spec (e : MusicEngine) (ft : DelayFilterType)
    (fr rs : ℚ) (order : DelayFilterOrder) (c : AudioContextState)
    (hctx : e.audioContext = some c) :
    (e.masterGain ≠ none →
      (createDelayEffect e).delayFilters.length =
        e.synthParams.delay.filterOrder.toNat / 6) ∧
    (e.delayFilters.length ≠ order.toNat / 6 →
      e.delayNode ≠ none → e.delayFeedbackGain ≠ none →
      e.delayWetGain ≠ none →
      (∀ f ∈ e.delayFilters, f.id < e.nextNodeId) →
      ((updateDelayFilters ft fr rs order e).1.delayFilters.length =
          order.toNat / 6 ∧
        (∀ f ∈ e.delayFilters,
          AudioEvent.nodeDisconnected f.id ∈
            (updateDelayFilters ft fr rs order e).2) ∧
        (∀ g ∈ (updateDelayFilters ft fr rs order e).1.delayFilters,
          ∀ f ∈ e.delayFilters, g.id ≠ f.id))) ∧
    (e.delayFilters.length = order.toNat / 6 →
      ((updateDelayFilters ft fr rs order e).1.delayFilters.map
          BiquadFilter.id = e.delayFilters.map BiquadFilter.id ∧
        (∀ f ∈ (updateDelayFilters ft fr rs order e).1.delayFilters,
          f.type = ft ∧ f.frequency = fr ∧ f.resonance = rs) ∧
        (updateDelayFilters ft fr rs order e).2 = [])) := by
  refine ⟨?_, ?_, ?_⟩
  · -- (i) construction
    intro hmg
    obtain ⟨m, hm⟩ := Option.ne_none_iff_exists'.mp hmg
    simp [createDelayEffect, hctx, hm, createFilters_length]
  · -- (ii) stage-count change: rebuild
    intro hne hdn hfg hwg hfresh
    obtain ⟨dn, hdn'⟩ := Option.ne_none_iff_exists'.mp hdn
    obtain ⟨fg, hfg'⟩ := Option.ne_none_iff_exists'.mp hfg
    obtain ⟨wg, hwg'⟩ := Option.ne_none_iff_exists'.mp hwg
    have hctx' : ¬ e.audioContext = none := by simp [hctx]
    simp only [updateDelayFilters, if_neg hctx', if_pos hne,
      recreateDelayFilterChain, hctx, hdn', hfg', hwg']
    refine ⟨createFilters_length _ _ _ _ _, ?_, ?_⟩
    · intro f hf
      exact List.mem_append_left _ (List.mem_map_of_mem _ hf)
    · intro g hg f hf
      have h1 := (createFilters_mem ft fr rs _ _ g hg).2.2.2
      have h2 := hfresh f hf
      omega
  · -- (iii) same stage count: in-place parameter update
    intro hlen
    have hctx' : ¬ e.audioContext = none := by simp [hctx]
    have hne' : ¬ e.delayFilters.length ≠ order.toNat / 6 := by
      simp [hlen]
    simp only [updateDelayFilters, if_neg hctx', if_neg hne']
    refine ⟨?_, ?_, ?_⟩
    · rw [List.map_map]
      rfl
    · intro f hf
      rcases List.mem_map.mp hf with ⟨g, _, hg⟩
      subst hg
      exact ⟨rfl, rfl, rfl⟩
    · trivial

/-- C6 witness on `sampleEngine` (default two-stage cascade), updating to
`filterOrder = 24` with a highpass at 500 Hz, Q 2. -/
theorem delayFilterChain_spec_witness :
    (sampleEngine.masterGain ≠ none →
      (createDelayEffect sampleEngine).delayFilters.length =
        sampleEngine.synthParams.delay.filterOrder.toNat / 6) ∧
    (sampleEngine.delayFilters.length ≠ DelayFilterOrder.o24.toNat / 6 →
      sampleEngine.delayNode ≠ none →
      sampleEngine.delayFeedbackGain ≠ none →
      sampleEngine.delayWetGain ≠ none →
      (∀ f ∈ sampleEngine.delayFilters, f.id < sampleEngine.nextNodeId) →
      ((updateDelayFilters .highpass 500 2 .o24
            sampleEngine).1.delayFilters.length =
          DelayFilterOrder.o24.toNat / 6 ∧
        (∀ f ∈ sampleEngine.delayFilters,
          AudioEvent.nodeDisconnected f.id ∈
            (updateDelayFilters .highpass 500 2 .o24 sampleEngine).2) ∧
        (∀ g ∈ (updateDelayFilters .highpass 500 2 .o24
            sampleEngine).1.delayFilters,
          ∀ f ∈ sampleEngine.delayFilters, g.id ≠ f.id))) ∧
    (sampleEngine.delayFilters.length = DelayFilterOrder.o24.toNat / 6 →
      ((updateDelayFilters .highpass 500 2 .o24
            sampleEngine).1.delayFilters.map BiquadFilter.id =
          sampleEngine.delayFilters.map BiquadFilter.id ∧
        (∀ f ∈ (updateDelayFilters .highpass 500 2 .o24
            sampleEngine).1.delayFilters,
          f.type = .highpass ∧ f.frequency = 500 ∧ f.resonance = 2) ∧
        (updateDelayFilters .highpass 500 2 .o24 sampleEngine).2 = [])) :=
  delayFilterChain_spec sampleEngine .highpass 500 2 .o24 .running rfl

end MusicBox

namespace MusicBox

/-- C8: if at most `MAX_VOICES` voices are tracked before a `triggerNote`
call, at most `MAX_VOICES` are tracked after it; and when the pool is
still full after cleanup, the oldest voice (the head of the list, i.e.
the earliest tracked) is stopped, disconnected and removed —
`voices.shift()` — before the new voice is appended. -/
theorem triggerNote_pool_spec (e : MusicEngine) (when duration now : ℚ)
    (hlen : e.voices.length ≤ MAX_VOICES) :
    (triggerNote when duration now e).1.voices.length ≤ MAX_VOICES ∧
    (∀ c m, e.audioContext = some c → e.masterGain = some m →
      ∀ oldest rest,
        (cleanupOldVoices now e.voices).1 = oldest :: rest →
        MAX_VOICES ≤ (oldest :: rest).length →
        (triggerNote when duration now e).1.voices =
            rest ++ [{ oscillator := some e.nextNodeId,
                       gainNode := some (e.nextNodeId + 1),
                       startTime := when,
                       endTime := when + duration +
                         e.synthParams.envelope.release }] ∧
          (triggerNote when duration now e).2 =
            (cleanupOldVoices now e.voices).2 ++ stopVoiceEvents oldest) := by
  constructor
  · -- pool bound is preserved
    cases hctx : e.audioContext with
    | none => simpa [triggerNote, hctx] using hlen
    | some c =>
      cases hmg : e.masterGain with
      | none => simpa [triggerNote, hctx, hmg] using hlen
      | some m =>
        have hcl : (cleanupOldVoices now e.voices).1.length ≤
            e.voices.length := List.length_filter_le _ _
        simp only [triggerNote, hctx, hmg]
        by_cases hfull : MAX_VOICES ≤ (cleanupOldVoices now e.voices).1.length
        · cases hc1 : (cleanupOldVoices now e.voices).1 with
          | nil =>
            rw [hc1] at hfull
            simp [MAX_VOICES] at hfull
          | cons oldest rest =>
            rw [hc1] at hfull hcl
            rw [if_pos hfull]
            simp only [List.length_cons] at hcl
            simp
            omega
        · rw [if_neg hfull]
          simp
          omega
  · -- eviction of the oldest on overflow
    intro c m hctx hmg oldest rest hclean hfull
    have hfull' : MAX_VOICES ≤ (cleanupOldVoices now e.voices).1.length := by
      rw [hclean]; exact hfull
    simp only [triggerNote, hctx, hmg]
    rw [hclean] at hfull' ⊢
    rw [if_pos hfull']
    exact ⟨rfl, rfl⟩

/-- C8 witness on `sampleEngine` (empty pool). -/
theorem triggerNote_pool_spec_witness :
    (triggerNote 1 2 1 sampleEngine).1.voices.length ≤ MAX_VOICES ∧
    (∀ c m, sampleEngine.audioContext = some c →
      sampleEngine.masterGain = some m →
      ∀ oldest rest,
        (cleanupOldVoices 1 sampleEngine.voices).1 = oldest :: rest →
        MAX_VOICES ≤ (oldest :: rest).length →
        (triggerNote 1 2 1 sampleEngine).1.voices =
            rest ++ [{ oscillator := some sampleEngine.nextNodeId,
                       gainNode := some (sampleEngine.nextNodeId + 1),
                       startTime := 1,
                       endTime := 1 + 2 +
                         sampleEngine.synthParams.envelope.release }] ∧
          (triggerNote 1 2 1 sampleEngine).2 =
            (cleanupOldVoices 1 sampleEngine.voices).2 ++
              stopVoiceEvents oldest) :=
  triggerNote_pool_spec sampleEngine 1 2 1 (by simp [sampleEngine, MAX_VOICES])

end MusicBox

namespace MusicBox

/-- An element of `head?` is a member. -/
theorem mem_of_mem_head (x : ℚ) (l : List ℚ) (h : x ∈ l.head?) : x ∈ l := by
  rw [List.eq_cons_of_mem_head? h]
  exact List.mem_cons_self _ _

/-- An element of `getLast?` is a member. -/
theorem mem_of_mem_last (x : ℚ) (l : List ℚ) (h : x ∈ l.getLast?) :
    x ∈ l := by
  rcases List.mem_getLast?_eq_getLast h with ⟨hne, hx⟩
  rw [hx]
  exact List.getLast_mem hne

/-- `scheduleNextNote` strictly advances the note time: the delta is
floored at `0.01` and the quantization only rounds up. -/
theorem scheduleNextNote_lt (bpm d t : ℚ) (hb : 0 < bpm) :
    t < scheduleNextNote bpm d t := by
  unfold scheduleNextNote
  have h1 := quantize_ge bpm (t + max 0.01 d) hb
  have h2 : (0.01 : ℚ) ≤ max 0.01 d := le_max_left _ _
  linarith

/-- `scheduleNextNote` always lands on the sixteenth grid. -/
theorem scheduleNextNote_grid (bpm d t : ℚ) :
    onSixteenthGrid bpm (scheduleNextNote bpm d t) :=
  quantize_on_grid bpm _

/-- Invariants of the note-triggering loop of one tick at clock time `T`:
the scheduled `nextNoteTime` only grows and stays on the grid; the onsets
emitted are non-decreasing, squeezed between
`max nnt (T + 0.02)` and `max nnt' (T + 0.02)`, and each is either on the
grid or the clamped time `T + 0.02`. -/
theorem schedulerNoteLoop_spec (bpm T : ℚ) (draws : ℕ → ℚ)
    (hb : 0 < bpm) :
    ∀ fuel i nnt, onSixteenthGrid bpm nnt →
      nnt ≤ (schedulerNoteLoop bpm T draws fuel i nnt).1 ∧
      onSixteenthGrid bpm (schedulerNoteLoop bpm T draws fuel i nnt).1 ∧
      List.Chain' (· ≤ ·) (schedulerNoteLoop bpm T draws fuel i nnt).2.2 ∧
      (∀ o ∈ (schedulerNoteLoop bpm T draws fuel i nnt).2.2,
        max nnt (T + 0.02) ≤ o ∧
          o ≤ max (schedulerNoteLoop bpm T draws fuel i nnt).1 (T + 0.02)) ∧
      (∀ o ∈ (schedulerNoteLoop bpm T draws fuel i nnt).2.2,
        onSixteenthGrid bpm o ∨ o = T + 0.02) := by
  intro fuel
  induction fuel with
  | zero =>
    intro i nnt hgrid
    exact ⟨le_refl _, hgrid, List.chain'_nil, by simp [schedulerNoteLoop],
      by simp [schedulerNoteLoop]⟩
  | succ fuel ih =>
    intro i nnt hgrid
    by_cases hcond : nnt ≤ T + 0.2
    · have hunf : schedulerNoteLoop bpm T draws (fuel + 1) i nnt =
          ((schedulerNoteLoop bpm T draws fuel (i + 1)
              (scheduleNextNote bpm (draws i) nnt)).1,
           (schedulerNoteLoop bpm T draws fuel (i + 1)
              (scheduleNextNote bpm (draws i) nnt)).2.1,
           max nnt (T + 0.02) ::
             (schedulerNoteLoop bpm T draws fuel (i + 1)
                (scheduleNextNote bpm (draws i) nnt)).2.2) := by
        simp only [schedulerNoteLoop, if_pos hcond]
      have hlt : nnt < scheduleNextNote bpm (draws i) nnt :=
        scheduleNextNote_lt bpm (draws i) nnt hb
      rcases ih (i + 1) (scheduleNextNote bpm (draws i) nnt)
        (scheduleNextNote_grid bpm (draws i) nnt) with
        ⟨ih1, ih2, ih3, ih4, ih5⟩
      rw [hunf]
      refine ⟨?_, ih2, ?_, ?_, ?_⟩
      · exact le_of_lt (lt_of_lt_of_le hlt ih1)
      · rw [List.chain'_cons']
        refine ⟨?_, ih3⟩
        intro y hy
        have hmem := mem_of_mem_head y _ hy
        have hlow := (ih4 y hmem).1
        calc max nnt (T + 0.02)
            ≤ max (scheduleNextNote bpm (draws i) nnt) (T + 0.02) :=
              max_le_max (le_of_lt hlt) (le_refl _)
          _ ≤ y := hlow
      · intro o ho
        rcases List.mem_cons.mp ho with h | h
        · subst h
          refine ⟨le_refl _, ?_⟩
          exact max_le_max (le_of_lt (lt_of_lt_of_le hlt ih1)) (le_refl _)
        · rcases ih4 o h with ⟨hl, hr⟩
          refine ⟨?_, hr⟩
          calc max nnt (T + 0.02)
              ≤ max (scheduleNextNote bpm (draws i) nnt) (T + 0.02) :=
                max_le_max (le_of_lt hlt) (le_refl _)
            _ ≤ o := hl
      · intro o ho
        rcases List.mem_cons.mp ho with h | h
        · subst h
          rcases le_total nnt (T + 0.02) with hc | hc
          · right
            exact max_eq_right hc
          · left
            rw [max_eq_left hc]
            exact hgrid
        · exact ih5 o h
    · have hunf : schedulerNoteLoop bpm T draws (fuel + 1) i nnt =
          (nnt, i, []) := by
        simp only [schedulerNoteLoop, if_neg hcond]
      rw [hunf]
      exact ⟨le_refl _, hgrid, List.chain'_nil, by simp, by simp⟩

/-- The graph-hop branch of a tick leaves `nextNoteTime` unchanged, so a
whole tick has the same note-timing behaviour as its note loop. -/
theorem schedulerTick_spec (bpm T : ℚ) (draws : ℕ → ℚ) (hb : 0 < bpm)
    (i : ℕ) (st : SchedulerTiming)
    (hgrid : onSixteenthGrid bpm st.nextNoteTime) :
    st.nextNoteTime ≤ (schedulerTick bpm T draws i st).1.nextNoteTime ∧
    onSixteenthGrid bpm (schedulerTick bpm T draws i st).1.nextNoteTime ∧
    List.Chain' (· ≤ ·) (schedulerTick bpm T draws i st).2.2 ∧
    (∀ o ∈ (schedulerTick bpm T draws i st).2.2,
      max st.nextNoteTime (T + 0.02) ≤ o ∧
        o ≤ max (schedulerTick bpm T draws i st).1.nextNoteTime
              (T + 0.02)) ∧
    (∀ o ∈ (schedulerTick bpm T draws i st).2.2,
      onSixteenthGrid bpm o ∨ o = T + 0.02) := by
  have hfield : ∀ st1 : SchedulerTiming,
      (schedulerTick bpm T draws i st).1.nextNoteTime =
        (schedulerNoteLoop bpm T draws 3 i st.nextNoteTime).1 ∧
      (schedulerTick bpm T draws i st).2.2 =
        (schedulerNoteLoop bpm T draws 3 i st.nextNoteTime).2.2 := by
    intro _
    unfold schedulerTick
    by_cases hhop : st.nextGraphHopTime - 0.2 ≤ T
    · rw [if_pos hhop]
      exact ⟨rfl, rfl⟩
    · rw [if_neg hhop]
      exact ⟨rfl, rfl⟩
  rcases hfield st with ⟨h1, h2⟩
  rw [h1, h2]
  exact schedulerNoteLoop_spec bpm T draws hb 3 i st.nextNoteTime hgrid

end MusicBox

namespace MusicBox

/-- Invariants of a whole scheduler execution over non-decreasing tick
times: `nextNoteTime` only grows and stays on the grid; the onset list is
non-decreasing; every onset is at least `max nnt₀ (T₀ + 0.02)` for the
first tick time `T₀`; and every onset is on the grid or clamped. -/
theorem schedulerRun_spec (bpm : ℚ) (draws : ℕ → ℚ) (hb : 0 < bpm) :
    ∀ ticks (i : ℕ) (st : SchedulerTiming),
      onSixteenthGrid bpm st.nextNoteTime →
      List.Chain' (· ≤ ·) ticks →
      st.nextNoteTime ≤
          (schedulerRun bpm draws ticks i st).1.nextNoteTime ∧
        onSixteenthGrid bpm
          (schedulerRun bpm draws ticks i st).1.nextNoteTime ∧
        List.Chain' (· ≤ ·) (schedulerRun bpm draws ticks i st).2.2 ∧
        (∀ o ∈ (schedulerRun bpm draws ticks i st).2.2,
          ∀ T0 ∈ ticks.head?, max st.nextNoteTime (T0 + 0.02) ≤ o) ∧
        (∀ o ∈ (schedulerRun bpm draws ticks i st).2.2,
          onSixteenthGrid bpm o ∨ ∃ T ∈ ticks, o = T + 0.02) := by
  intro ticks
  induction ticks with
  | nil =>
    intro i st hgrid _
    exact ⟨le_refl _, hgrid, List.chain'_nil, by simp [schedulerRun],
      by simp [schedulerRun]⟩
  | cons T Ts ih =>
    intro i st hgrid hchain
    rcases List.chain'_cons'.mp hchain with ⟨hhead, htail⟩
    rcases schedulerTick_spec bpm T draws hb i st hgrid with
      ⟨t1, t2, t3, t4, t5⟩
    rcases ih (schedulerTick bpm T draws i st).2.1
        (schedulerTick bpm T draws i st).1 t2 htail with
      ⟨r1, r2, r3, r4, r5⟩
    have hunf : schedulerRun bpm draws (T :: Ts) i st =
        ((schedulerRun bpm draws Ts (schedulerTick bpm T draws i st).2.1
            (schedulerTick bpm T draws i st).1).1,
         (schedulerRun bpm draws Ts (schedulerTick bpm T draws i st).2.1
            (schedulerTick bpm T draws i st).1).2.1,
         (schedulerTick bpm T draws i st).2.2 ++
           (schedulerRun bpm draws Ts (schedulerTick bpm T draws i st).2.1
              (schedulerTick bpm T draws i st).1).2.2) := by
      simp only [schedulerRun]
    rw [hunf]
    have hrest_lower : ∀ o ∈ (schedulerRun bpm draws Ts
        (schedulerTick bpm T draws i st).2.1
        (schedulerTick bpm T draws i st).1).2.2,
        max (schedulerTick bpm T draws i st).1.nextNoteTime (T + 0.02) ≤
          o := by
      intro o ho
      cases Ts with
      | nil => simp [schedulerRun] at ho
      | cons T' Ts' =>
        have hT' : T ≤ T' := hhead T' rfl
        have h := r4 o ho T' rfl
        calc max (schedulerTick bpm T draws i st).1.nextNoteTime (T + 0.02)
            ≤ max (schedulerTick bpm T draws i st).1.nextNoteTime
                (T' + 0.02) :=
              max_le_max (le_refl _) (by linarith)
          _ ≤ o := h
    refine ⟨le_trans t1 r1, r2, ?_, ?_, ?_⟩
    · refine List.Chain'.append t3 r3 ?_
      intro x hx y hy
      have hxm := mem_of_mem_last x _ hx
      have hym := mem_of_mem_head y _ hy
      have hxub := (t4 x hxm).2
      exact le_trans hxub (hrest_lower y hym)
    · intro o ho T0 hT0
      have hT0' : T0 = T := by
        have := hT0
        simp only [List.head?_cons, Option.mem_def, Option.some.injEq] at this
        exact this.symm
      subst hT0'
      rcases List.mem_append.mp ho with h | h
      · exact (t4 o h).1
      · have := hrest_lower o h
        calc max st.nextNoteTime (T0 + 0.02)
            ≤ max (schedulerTick bpm T0 draws i st).1.nextNoteTime
                (T0 + 0.02) := max_le_max t1 (le_refl _)
          _ ≤ o := this
    · intro o ho
      rcases List.mem_append.mp ho with h | h
      · rcases t5 o h with hg | hc
        · exact Or.inl hg
        · exact Or.inr ⟨T, List.mem_cons_self _ _, hc⟩
      · rcases r5 o h with hg | ⟨T', hT', hc⟩
        · exact Or.inl hg
        · exact Or.inr ⟨T', List.mem_cons_of_mem _ hT', hc⟩

end MusicBox

namespace MusicBox

/-- C1 (amended): for every execution of the live scheduler — any
`bpm > 0` (hence any `λ > 0`), any exponential draws, any non-decreasing
tick times — starting from the state `start()` leaves
(`nextNoteTime = scheduleNextNote(t0)`), the sequence of note onset
times passed to `triggerRandomNote` is non-decreasing, and every onset
either lies on the sixteenth-note grid `(60/bpm)/4` or is a clamped
trigger time `currentTime + 0.02`; in particular every onset at which no
clamping occurred lies on the grid.  (The claim's assertion that clamped
onsets also stay on the grid is refuted separately.) -/
theorem scheduler_onsets_spec (bpm t0 d0 hop0 : ℚ) (draws : ℕ → ℚ)
    (ticks : List ℚ) (hb : 0 < bpm)
    (hticks : List.Chain' (· ≤ ·) ticks) :
    List.Chain' (· ≤ ·)
      (schedulerRun bpm draws ticks 0
        ⟨scheduleNextNote bpm d0 t0, hop0⟩).2.2 ∧
    ∀ o ∈ (schedulerRun bpm draws ticks 0
        ⟨scheduleNextNote bpm d0 t0, hop0⟩).2.2,
      onSixteenthGrid bpm o ∨ ∃ T ∈ ticks, o = T + 0.02 := by
  rcases schedulerRun_spec bpm draws hb ticks 0
      ⟨scheduleNextNote bpm d0 t0, hop0⟩
      (scheduleNextNote_grid bpm d0 t0) hticks with ⟨_, _, h3, _, h5⟩
  exact ⟨h3, h5⟩

/-- C1 witness: a concrete execution at `bpm = 60` with two ticks. -/
theorem scheduler_onsets_spec_witness :
    List.Chain' (· ≤ ·)
      (schedulerRun 60 (fun _ => 0) [0, 1] 0
        ⟨scheduleNextNote 60 0 0, 16⟩).2.2 ∧
    ∀ o ∈ (schedulerRun 60 (fun _ => 0) [0, 1] 0
        ⟨scheduleNextNote 60 0 0, 16⟩).2.2,
      onSixteenthGrid 60 o ∨ ∃ T ∈ ([0, 1] : List ℚ), o = T + 0.02 :=
  scheduler_onsets_spec 60 0 0 16 (fun _ => 0) [0, 1] (by norm_num)
    (by simp [List.chain'_cons])

/-- Unfolding equation for one productive iteration of the note loop. -/
theorem schedulerNoteLoop_step_pos (bpm T : ℚ) (draws : ℕ → ℚ)
    (fuel i : ℕ) (nnt : ℚ) (h : nnt ≤ T + 0.2) :
    schedulerNoteLoop bpm T draws (fuel + 1) i nnt =
      ((schedulerNoteLoop bpm T draws fuel (i + 1)
          (scheduleNextNote bpm (draws i) nnt)).1,
       (schedulerNoteLoop bpm T draws fuel (i + 1)
          (scheduleNextNote bpm (draws i) nnt)).2.1,
       max nnt (T + 0.02) ::
         (schedulerNoteLoop bpm T draws fuel (i + 1)
            (scheduleNextNote bpm (draws i) nnt)).2.2) := by
  simp only [schedulerNoteLoop, if_pos h]

/-- Unfolding equation for the loop once `nextNoteTime` leaves the
lookahead window. -/
theorem schedulerNoteLoop_step_neg (bpm T : ℚ) (draws : ℕ → ℚ)
    (fuel i : ℕ) (nnt : ℚ) (h : ¬ nnt ≤ T + 0.2) :
    schedulerNoteLoop bpm T draws (fuel + 1) i nnt = (nnt, i, []) := by
  simp only [schedulerNoteLoop, if_neg h]

end MusicBox

namespace MusicBox

/-- C1 counterexample: at `bpm = 60` (`sixteenthSeconds = 1/4`), starting
at clock time `0` with all exponential draws `0`, the scheduler holds
`nextNoteTime = 1/4` when a tick fires at clock time `1/2`; the tick
clamps the trigger time to `1/2 + 0.02 = 13/25`, which is passed to
`triggerRandomNote` but is not a multiple of `1/4` — onsets produced by
the 20 ms clamp do NOT lie on the sixteenth-note grid. -/
theorem scheduler_clamped_onset_off_grid :
    (13/25 : ℚ) ∈ (schedulerRun 60 (fun _ => 0) [1/2] 0
        ⟨scheduleNextNote 60 0 0, 16⟩).2.2 ∧
    ¬ onSixteenthGrid 60 (13/25) := by
  have hA : scheduleNextNote 60 0 0 = 1/4 := by
    unfold scheduleNextNote
    rw [max_eq_left (by norm_num : (0:ℚ) ≤ 0.01)]
    rw [quantizeToSixteenth_eval 60 (0 + 0.01) 1
      (by norm_num [sixteenthSeconds]) (by norm_num [sixteenthSeconds])]
    norm_num [sixteenthSeconds]
  have hB : scheduleNextNote 60 0 (1/4) = 1/2 := by
    unfold scheduleNextNote
    rw [max_eq_left (by norm_num : (0:ℚ) ≤ 0.01)]
    rw [quantizeToSixteenth_eval 60 (1/4 + 0.01) 2
      (by norm_num [sixteenthSeconds]) (by norm_num [sixteenthSeconds])]
    norm_num [sixteenthSeconds]
  have hC : scheduleNextNote 60 0 (1/2) = 3/4 := by
    unfold scheduleNextNote
    rw [max_eq_left (by norm_num : (0:ℚ) ≤ 0.01)]
    rw [quantizeToSixteenth_eval 60 (1/2 + 0.01) 3
      (by norm_num [sixteenthSeconds]) (by norm_num [sixteenthSeconds])]
    norm_num [sixteenthSeconds]
  have hB' : scheduleNextNote 60 ((fun _ : ℕ => (0:ℚ)) 0) (1/4) = 1/2 := hB
  have hC' : scheduleNextNote 60 ((fun _ : ℕ => (0:ℚ)) 1) (1/2) = 3/4 := hC
  have hloop : schedulerNoteLoop 60 (1/2) (fun _ => 0) 3 0 (1/4) =
      (3/4, 2, [13/25, 13/25]) := by
    rw [schedulerNoteLoop_step_pos 60 (1/2) (fun _ => 0) 2 0 (1/4)
      (by norm_num), hB']
    rw [schedulerNoteLoop_step_pos 60 (1/2) (fun _ => 0) 1 1 (1/2)
      (by norm_num), hC']
    rw [schedulerNoteLoop_step_neg 60 (1/2) (fun _ => 0) 0 2 (3/4)
      (by norm_num)]
    rw [max_eq_right (by norm_num : (1/4:ℚ) ≤ 1/2 + 0.02),
      max_eq_right (by norm_num : (1/2:ℚ) ≤ 1/2 + 0.02)]
    norm_num
  have hrun : (schedulerRun 60 (fun _ => 0) [1/2] 0
      (⟨1/4, 16⟩ : SchedulerTiming)).2.2 = [13/25, 13/25] := by
    norm_num [schedulerRun, schedulerTick, hloop]
  constructor
  · rw [hA, hrun]
    simp
  · rintro ⟨k, hk⟩
    rw [show sixteenthSeconds 60 = 1/4 from by norm_num [sixteenthSeconds]]
      at hk
    have h3 : (25:ℚ) * k = 52 := by linarith
    have h4 : (25 * k : ℤ) = 52 := by exact_mod_cast h3
    omega

end MusicBox
